import Mathlib

/-!
Shallow embedding of the weight-clustering compression layer in `ernie.py`
(class `QuantizedLayer` and its collaborators), over exact rationals.

Tensors are modelled as a (rows, cols) shape together with a row-major flat
list of entries; the layer's weights are scalars, so the `(-1, 1)` reshape
used for the clustering library is represented by keeping the flat scalar
list.  The external K-means collaborator (scikit-learn `KMeans` with an
explicit `init` array, `n_init=1` and `max_iter=100`) is modelled as seeded
Lloyd iteration with sklearn's constructor validation; the autodiff
collaborator is modelled by the explicit gradient of the (linear-in-the-
codebook) forward map together with an SGD update that touches only
parameters whose `requires_grad` flag is set.
-/

deriving instance DecidableEq for Except

namespace Ernie

/-- Shaped tensor: a (rows, cols) shape plus a row-major flat data list. -/
structure Tensor (α : Type) where
  rows : Nat
  cols : Nat
  data : List α
deriving DecidableEq, Repr

/-- Row-major flatten of a tensor (`torch.Tensor.flatten`). -/
def Tensor.flatten {α : Type} (t : Tensor α) : List α := t.data

/-- Reshape a flat list to a given 2-D shape (`torch.Tensor.view`). -/
def Tensor.view {α : Type} (r c : Nat) (l : List α) : Tensor α :=
  { rows := r, cols := c, data := l }

/-- An original dense layer (`nn.Linear`): weight tensor plus optional bias. -/
structure LinearLayer where
  weight : Tensor ℚ
  bias : Option (List ℚ)
deriving DecidableEq, Repr

/-- Minimum entry of a list (`np.min`); 0 on the empty list, on which numpy
would raise instead (the constructor path checks emptiness explicitly). -/
def listMin : List ℚ → ℚ
  | [] => 0
  | x :: xs => xs.foldl min x

/-- Maximum entry of a list (`np.max`). -/
def listMax : List ℚ → ℚ
  | [] => 0
  | x :: xs => xs.foldl max x

/-- Evenly spaced samples from `a` to `b` inclusive (`np.linspace`). -/
def linspace (a b : ℚ) (num : Nat) : List ℚ :=
  if num = 0 then []
  else if num = 1 then [a]
  else (List.range num).map (fun i : ℕ => a + (i : ℚ) * ((b - a) / ((num : ℚ) - 1)))

/-- Body of the `linear` branch of `QuantizedLayer.init_centroid_weights`:
scale min and max by 10, space `num_clusters` values over `num_clusters + 1`
intervals away from the extremes, rescale by 1/10. -/
def linearInitVals (weights : List ℚ) (num_clusters : Nat) : List ℚ :=
  let min_weight := listMin weights * 10
  let max_weight := listMax weights * 10
  let spacing := (max_weight - min_weight) / (num_clusters + 1)
  (linspace (min_weight + spacing) (max_weight - spacing) num_clusters).map
    (fun v => v / 10)

/-- Embedding of `QuantizedLayer.init_centroid_weights`.  The unsupported
branch raises `ValueError` with the format string of line 91; `np.min` on an
empty array raises, modelled by the explicit emptiness check.  The final
`reshape(-1, 1)` is the identity on our scalar representation. -/
def init_centroid_weights (weights : List ℚ) (num_clusters : Nat)
    (init_method : String) : Except String (List ℚ) :=
  if init_method = "linear" then
    if weights = [] then
      .error "zero-size array to reduction operation minimum which has no identity"
    else
      .ok (linearInitVals weights num_clusters)
  else
    .error ("Initialize method " ++ init_method ++ " for centroids is unsupported")

/-- Index of the nearest centroid to `x` (squared Euclidean distance on
scalars, first minimum wins on ties), as in `KMeans.predict`. -/
def nearestIdx (cs : List ℚ) (x : ℚ) : Nat :=
  match cs with
  | [] => 0
  | [_] => 0
  | c :: d :: rest =>
    if (x - c) ^ 2 ≤ (x - (d :: rest).getD (nearestIdx (d :: rest) x) 0) ^ 2 then 0
    else nearestIdx (d :: rest) x + 1

/-- One Lloyd iteration: assign every sample to its nearest centroid, then
move each centroid to the mean of its cluster (a centroid with an empty
cluster is left in place). -/
def lloydStep (xs : List ℚ) (cs : List ℚ) : List ℚ :=
  (List.range cs.length).map (fun j =>
    let pts := xs.filter (fun x => nearestIdx cs x = j)
    if pts.length = 0 then cs.getD j 0 else pts.sum / (pts.length : ℚ))

/-- Lloyd iteration with a fuel bound: stop early once the centroids are
stationary, otherwise accept the best-effort result when fuel runs out. -/
def lloydLoop (xs : List ℚ) : Nat → List ℚ → List ℚ
  | 0, cs => cs
  | n + 1, cs =>
    if lloydStep xs cs = cs then cs else lloydLoop xs n (lloydStep xs cs)

/-- Model of the external clustering collaborator: `KMeans(n_clusters,
init=initC, n_init=1, max_iter=maxIter).fit(xs)`, returning the fitted
`cluster_centers_`.  The guards mirror sklearn's parameter validation
(`n_clusters >= 1`, `n_samples >= n_clusters`, explicit `init` of shape
`(n_clusters, 1)`); with an explicit seed array a single run is performed. -/
def kmeansFit (n_clusters : Nat) (initC : List ℚ) (maxIter : Nat)
    (xs : List ℚ) : Except String (List ℚ) :=
  if n_clusters = 0 then
    .error "n_clusters should be an integer greater than zero"
  else if xs.length < n_clusters then
    .error "n_samples should be >= n_clusters"
  else if initC.length ≠ n_clusters then
    .error "the shape of the initial centers should match n_clusters"
  else
    .ok (lloydLoop xs maxIter initC)

/-- State of a constructed `QuantizedLayer`.  `q_weight` is the integer
Index Matrix stored (with `requires_grad=False`) in place of the copied
layer's weight; `q_bias` is the bias kept by `copy.deepcopy(layer)`;
`centroid_table` is the codebook held in an `nn.Embedding.from_pretrained`
with `freeze=False` (each centroid is a 1-dimensional coordinate, stored
here as the scalar it contains). -/
structure QLayer where
  q_weight : Tensor Nat
  q_weight_requires_grad : Bool
  q_bias : Option (List ℚ)
  centroid_table : List ℚ
  centroid_table_freeze : Bool
deriving DecidableEq, Repr

/-- Embedding of `QuantizedLayer.__init__`, parameterised by the clustering
collaborator `km` so that failures before the `KMeans` call are visibly
independent of it.  A raised `ValueError` propagates as `.error` and no
layer object is produced. -/
def constructGeneric
    (km : Nat → List ℚ → Nat → List ℚ → Except String (List ℚ))
    (layer : LinearLayer) (n_clusters : Nat) (init_method : String) :
    Except String QLayer :=
  let orig_shape := (layer.weight.rows, layer.weight.cols)
  let layer_weights := layer.weight.flatten
  match init_centroid_weights layer_weights n_clusters init_method with
  | .error e => .error e
  | .ok init_centroid_values =>
    match km n_clusters init_centroid_values 100 layer_weights with
    | .error e => .error e
    | .ok cluster_centers =>
      let centroid_idxs := layer_weights.map (nearestIdx cluster_centers)
      .ok { q_weight := Tensor.view orig_shape.1 orig_shape.2 centroid_idxs
            q_weight_requires_grad := false
            q_bias := layer.bias
            centroid_table := cluster_centers
            centroid_table_freeze := false }

/-- Embedding of `QuantizedLayer.__init__` with the concrete clustering
collaborator of line 51 (`n_init=1`, `max_iter=100`, seeded with the
centroids from `init_centroid_weights`). -/
def construct (layer : LinearLayer) (n_clusters : Nat)
    (init_method : String) : Except String QLayer :=
  constructGeneric kmeansFit layer n_clusters init_method

/-- Differentiable lookup of one Index Matrix entry in the codebook
(`self.centroid_table(idx)`, embedding dimension 1). -/
def embLookup (table : List ℚ) (i : Nat) : ℚ := table.getD i 0

/-- Row `i` of a weight tensor. -/
def tensorRow (t : Tensor ℚ) (i : Nat) : List ℚ :=
  (List.range t.cols).map (fun j => t.data.getD (i * t.cols + j) 0)

/-- Dot product of two equally long vectors. -/
def dotList (a b : List ℚ) : ℚ := ((a.zip b).map (fun p => p.1 * p.2)).sum

/-- Bias-free linear transform `F.linear(input, w, bias=False)` on a 1-D
input: output entry `i` is `⟨row i of w, input⟩`. -/
def flinear (input_ : List ℚ) (w : Tensor ℚ) : List ℚ :=
  (List.range w.rows).map (fun i => dotList (tensorRow w i) input_)

/-- Embedding of `QuantizedLayer.forward`: flatten the stored Index Matrix,
look every entry up in the codebook, view the result back to the original
weight shape, and apply the bias-free linear transform. -/
def QLayer.forward (ql : QLayer) (input_ : List ℚ) : List ℚ :=
  let orig_shape := (ql.q_weight.rows, ql.q_weight.cols)
  let weights :=
    Tensor.view orig_shape.1 orig_shape.2
      (ql.q_weight.flatten.map (embLookup ql.centroid_table))
  flinear input_ weights

/-- Dense weight matrix reconstructed inside `forward` (line 106). -/
def reconstructWeights (ql : QLayer) : Tensor ℚ :=
  Tensor.view ql.q_weight.rows ql.q_weight.cols
    (ql.q_weight.flatten.map (embLookup ql.centroid_table))

/-- Forward evaluator as the specification words it: reconstruct an
effective dense weight matrix by looking up each Index Matrix entry in the
current Centroid Set, reshape to the original weight shape, then apply the
standard matrix multiply with no bias term. -/
def specForwardEval (ql : QLayer) (input_ : List ℚ) : List ℚ :=
  flinear input_ (reconstructWeights ql)

/-- Forward as a state transformer: the method reads `self` and assigns to
no attribute, so it returns the output together with the unchanged state. -/
def QLayer.forwardS (ql : QLayer) (input_ : List ℚ) : List ℚ × QLayer :=
  (ql.forward input_, ql)

/-- Gradient of the scalar loss `∑ i, g i * (forward ql x) i` with respect
to codebook entry `k`, where `g` is the upstream gradient `∂loss/∂out`.
Since `out i = ∑ j, table (idx i j) * x j`, backpropagation through the
embedding lookup accumulates `g i * x j` into every entry `k` with
`idx i j = k`; the integer Index Matrix receives no gradient. -/
def tableGrad (ql : QLayer) (x g : List ℚ) : List ℚ :=
  (List.range ql.centroid_table.length).map (fun k =>
    ((List.range ql.q_weight.rows).map (fun i =>
      g.getD i 0 *
        ((List.range ql.q_weight.cols).map (fun j =>
          if ql.q_weight.data.getD (i * ql.q_weight.cols + j) 0 = k
          then x.getD j 0 else 0)).sum)).sum)

/-- One gradient-descent step through the forward evaluator (the update
`f.data.sub_(f.grad.data * lr)` of the demonstration harness): every
parameter whose `requires_grad` flag is set moves against its gradient;
the Index Matrix is frozen integer state and receives no update. -/
def sgdStep (ql : QLayer) (lr : ℚ) (x g : List ℚ) : QLayer :=
  { ql with
    centroid_table :=
      if ql.centroid_table_freeze then ql.centroid_table
      else ql.centroid_table.zipWith (fun t gk => t - lr * gk) (tableGrad ql x g) }

/-- An operation performed on a quantized layer after construction. -/
inductive LayerOp where
  | fwd (x : List ℚ)
  | train (lr : ℚ) (x g : List ℚ)

/-- Apply one post-construction operation to the layer state. -/
def applyOp (ql : QLayer) : LayerOp → QLayer
  | .fwd x => (ql.forwardS x).2
  | .train lr x g => sgdStep ql lr x g

/-- Apply a sequence of post-construction operations. -/
def applyOps (ql : QLayer) (ops : List LayerOp) : QLayer :=
  ops.foldl applyOp ql

/-- Sum of squared entrywise differences between two flat lists. -/
def sqError (a b : List ℚ) : ℚ :=
  ((a.zip b).map (fun p => (p.1 - p.2) ^ 2)).sum

/-- Total squared distance from each sample to its nearest centroid (the
K-means inertia of the centroid list `cs` on the samples `xs`). -/
def inertia (cs xs : List ℚ) : ℚ :=
  (xs.map (fun x => (x - cs.getD (nearestIdx cs x) 0) ^ 2)).sum

/-- Number of distinct values in a list. -/
def distinctCount (l : List ℚ) : Nat := l.dedup.length

/-- The layer of the demonstration harness: weight `[[0, 0], [1, 3]]`. -/
def demoLinear : LinearLayer :=
  { weight := { rows := 2, cols := 2, data := [0, 0, 1, 3] }, bias := none }

/-- Centroid list produced by the whole clustering pipeline on flat weights
`w` with `K` clusters: Lloyd iteration (at most 100 steps) seeded with the
linear initial centroids. -/
def fittedCenters (w : List ℚ) (K : Nat) : List ℚ :=
  lloydLoop w 100 (linearInitVals w K)

/-- The layer record produced by a successful quantization of `layer` with
`K` clusters and linear initialization. -/
def expectedQLayer (layer : LinearLayer) (K : Nat) : QLayer :=
  { q_weight := Tensor.view layer.weight.rows layer.weight.cols
      (layer.weight.data.map (nearestIdx (fittedCenters layer.weight.data K)))
    q_weight_requires_grad := false
    q_bias := layer.bias
    centroid_table := fittedCenters layer.weight.data K
    centroid_table_freeze := false }

/-- The quantized layer obtained from the demonstration layer with two
clusters: K-means on `[0, 0, 1, 3]` seeded with `[1, 2]` converges to the
centroids `[1/3, 3]`, and the weights map to the indices `[0, 0, 0, 1]`. -/
def demoQL : QLayer :=
  { q_weight := { rows := 2, cols := 2, data := [0, 0, 0, 1] }
    q_weight_requires_grad := false
    q_bias := none
    centroid_table := [1 / 3, 3]
    centroid_table_freeze := false }

/-- The demonstration layer with a bias attached. -/
def demoLinearBias1 : LinearLayer :=
  { weight := { rows := 2, cols := 2, data := [0, 0, 1, 3] }, bias := some [1, 2] }

/-- The demonstration layer with a different bias attached. -/
def demoLinearBias2 : LinearLayer :=
  { weight := { rows := 2, cols := 2, data := [0, 0, 1, 3] }, bias := some [-5, 7] }

/-- A tiny quantized layer (one weight position, two centroids) used to
exercise a training step with a nonzero centroid gradient. -/
def tinyQL : QLayer :=
  { q_weight := { rows := 1, cols := 1, data := [0] }
    q_weight_requires_grad := false
    q_bias := none
    centroid_table := [1, 2]
    centroid_table_freeze := false }

/-- Quantization result for `demoLinearBias1` (the bias is deep-copied). -/
def demoQLBias1 : QLayer := { demoQL with q_bias := some [1, 2] }

/-- Quantization result for `demoLinearBias2` (the bias is deep-copied). -/
def demoQLBias2 : QLayer := { demoQL with q_bias := some [-5, 7] }

lemma length_linspace (a b : ℚ) (num : Nat) : (linspace a b num).length = num := by
  unfold linspace
  split
  · rename_i h; rw [h]; rfl
  · split
    · rename_i h; rw [h]; rfl
    · rw [List.length_map, List.length_range]

lemma length_linearInitVals (w : List ℚ) (K : Nat) :
    (linearInitVals w K).length = K := by
  unfold linearInitVals
  simp [length_linspace]

lemma length_lloydStep (xs cs : List ℚ) : (lloydStep xs cs).length = cs.length := by
  simp [lloydStep]

lemma length_lloydLoop (xs : List ℚ) (n : Nat) (cs : List ℚ) :
    (lloydLoop xs n cs).length = cs.length := by
  induction n generalizing cs with
  | zero => rfl
  | succ n ih =>
      unfold lloydLoop
      split
      · rfl
      · rw [ih, length_lloydStep]

lemma length_fittedCenters (w : List ℚ) (K : Nat) :
    (fittedCenters w K).length = K := by
  rw [fittedCenters, length_lloydLoop, length_linearInitVals]

lemma nearestIdx_lt (cs : List ℚ) (x : ℚ) (h : cs ≠ []) :
    nearestIdx cs x < cs.length := by
  induction cs with
  | nil => exact absurd rfl h
  | cons c rest ih =>
      cases rest with
      | nil => simp [nearestIdx]
      | cons d rest2 =>
          rw [nearestIdx]
          split
          · simp
          · have h2 := ih (List.cons_ne_nil d rest2)
            simpa using Nat.succ_lt_succ h2

lemma nearestIdx_min (cs : List ℚ) (x : ℚ) (j : Nat) (hj : j < cs.length) :
    (x - cs.getD (nearestIdx cs x) 0) ^ 2 ≤ (x - cs.getD j 0) ^ 2 := by
  induction cs generalizing j with
  | nil => simp at hj
  | cons c rest ih =>
      cases rest with
      | nil =>
          have hj0 : j = 0 := by
            simp only [List.length_singleton] at hj
            omega
          subst hj0
          simp [nearestIdx]
      | cons d rest2 =>
          rw [nearestIdx]
          split
          · rename_i hle
            cases j with
            | zero => simp
            | succ j' =>
                have hj' : j' < (d :: rest2).length := by
                  simpa using Nat.lt_of_succ_lt_succ (by simpa using hj)
                refine le_trans ?_ (ih j' hj')
                simpa using hle
          · rename_i hlt
            push_neg at hlt
            cases j with
            | zero =>
                simpa using hlt.le
            | succ j' =>
                have hj' : j' < (d :: rest2).length := by
                  simpa using Nat.lt_of_succ_lt_succ (by simpa using hj)
                simpa using ih j' hj'

lemma distinctCount_le (l : List ℚ) : distinctCount l ≤ l.length :=
  (List.dedup_sublist l).length_le

lemma lloydStep_ne_nil (xs cs : List ℚ) (h : cs ≠ []) : lloydStep xs cs ≠ [] := by
  intro h0
  apply h
  have hl := length_lloydStep xs cs
  rw [h0] at hl
  exact List.length_eq_zero.mp hl.symm

lemma sum_map_apply_eq_sum_filter (xs : List ℚ) (a : ℚ → Nat) (K : Nat)
    (ha : ∀ x ∈ xs, a x < K) (g : Nat → ℚ → ℚ) :
    (xs.map (fun x => g (a x) x)).sum
      = ∑ j ∈ Finset.range K, ((xs.filter (fun x => a x = j)).map (g j)).sum := by
  induction xs with
  | nil => simp
  | cons y ys ih =>
      have hy : a y ∈ Finset.range K := Finset.mem_range.mpr (ha y (by simp))
      have ih' := ih (fun x hx => ha x (by simp [hx]))
      rw [List.map_cons, List.sum_cons, ih']
      have hsplit : ∀ j,
          (((y :: ys).filter (fun x => a x = j)).map (g j)).sum
            = (if a y = j then g j y else 0)
                + ((ys.filter (fun x => a x = j)).map (g j)).sum := by
        intro j
        by_cases h : a y = j
        · simp [List.filter_cons, h]
        · simp [List.filter_cons, h]
      rw [Finset.sum_congr rfl (fun j _ => hsplit j), Finset.sum_add_distrib,
        Finset.sum_ite_eq (Finset.range K) (a y) (fun j => g j y), if_pos hy]

lemma sum_map_sq_sub (l : List ℚ) (m : ℚ) :
    (l.map (fun x => (x - m) ^ 2)).sum
      = (l.map (fun x => x ^ 2)).sum - 2 * m * l.sum + (l.length : ℚ) * m ^ 2 := by
  induction l with
  | nil => simp
  | cons y ys ih =>
      simp only [List.map_cons, List.sum_cons, ih, List.length_cons]
      push_cast
      ring

lemma sum_sq_mean_le (l : List ℚ) (c : ℚ) (h : l ≠ []) :
    (l.map (fun x => (x - l.sum / (l.length : ℚ)) ^ 2)).sum
      ≤ (l.map (fun x => (x - c) ^ 2)).sum := by
  have hn : (0 : ℚ) < (l.length : ℚ) := by
    exact_mod_cast List.length_pos.mpr h
  rw [sum_map_sq_sub, sum_map_sq_sub]
  have hS : l.sum = (l.length : ℚ) * (l.sum / (l.length : ℚ)) := by
    field_simp
  set n := (l.length : ℚ)
  set μ := l.sum / n
  rw [hS]
  nlinarith [mul_nonneg hn.le (sq_nonneg (μ - c))]

lemma getD_lloydStep (xs cs : List ℚ) (j : Nat) (hj : j < cs.length) :
    (lloydStep xs cs).getD j 0
      = if (xs.filter (fun x => nearestIdx cs x = j)).length = 0
        then cs.getD j 0
        else (xs.filter (fun x => nearestIdx cs x = j)).sum
              / ((xs.filter (fun x => nearestIdx cs x = j)).length : ℚ) := by
  have hlt : j < (lloydStep xs cs).length := by
    rw [length_lloydStep]; exact hj
  rw [List.getD_eq_getElem _ _ hlt]
  unfold lloydStep
  rw [List.getElem_map, List.getElem_range]

lemma inertia_lloydStep_le (xs cs : List ℚ) (h : cs ≠ []) :
    inertia (lloydStep xs cs) xs ≤ inertia cs xs := by
  have hlen : (lloydStep xs cs).length = cs.length := length_lloydStep xs cs
  have h' : lloydStep xs cs ≠ [] := lloydStep_ne_nil xs cs h
  have ha : ∀ x ∈ xs, nearestIdx cs x < cs.length := fun x _ => nearestIdx_lt cs x h
  have stepA : inertia (lloydStep xs cs) xs
      ≤ (xs.map (fun x => (x - (lloydStep xs cs).getD (nearestIdx cs x) 0) ^ 2)).sum := by
    unfold inertia
    apply List.sum_le_sum
    intro x hx
    exact nearestIdx_min (lloydStep xs cs) x (nearestIdx cs x) (by rw [hlen]; exact ha x hx)
  have stepB : (xs.map (fun x => (x - (lloydStep xs cs).getD (nearestIdx cs x) 0) ^ 2)).sum
      = ∑ j ∈ Finset.range cs.length,
          ((xs.filter (fun x => nearestIdx cs x = j)).map
            (fun x => (x - (lloydStep xs cs).getD j 0) ^ 2)).sum :=
    sum_map_apply_eq_sum_filter xs (nearestIdx cs) cs.length ha
      (fun j x => (x - (lloydStep xs cs).getD j 0) ^ 2)
  have stepD : inertia cs xs
      = ∑ j ∈ Finset.range cs.length,
          ((xs.filter (fun x => nearestIdx cs x = j)).map
            (fun x => (x - cs.getD j 0) ^ 2)).sum :=
    sum_map_apply_eq_sum_filter xs (nearestIdx cs) cs.length ha
      (fun j x => (x - cs.getD j 0) ^ 2)
  have stepC : ∀ j ∈ Finset.range cs.length,
      ((xs.filter (fun x => nearestIdx cs x = j)).map
        (fun x => (x - (lloydStep xs cs).getD j 0) ^ 2)).sum
        ≤ ((xs.filter (fun x => nearestIdx cs x = j)).map
            (fun x => (x - cs.getD j 0) ^ 2)).sum := by
    intro j hj
    rw [Finset.mem_range] at hj
    rcases Nat.eq_zero_or_pos (xs.filter (fun x => nearestIdx cs x = j)).length with hz | hpos
    · rw [List.length_eq_zero.mp hz]
      simp
    · have hne : xs.filter (fun x => nearestIdx cs x = j) ≠ [] := by
        intro h0
        rw [h0] at hpos
        simp at hpos
      have hget : (lloydStep xs cs).getD j 0
          = (xs.filter (fun x => nearestIdx cs x = j)).sum
              / ((xs.filter (fun x => nearestIdx cs x = j)).length : ℚ) := by
        rw [getD_lloydStep xs cs j hj, if_neg (by omega)]
      rw [hget]
      exact sum_sq_mean_le (xs.filter (fun x => nearestIdx cs x = j)) (cs.getD j 0) hne
  calc inertia (lloydStep xs cs) xs
      ≤ _ := stepA
    _ = _ := stepB
    _ ≤ _ := Finset.sum_le_sum stepC
    _ = inertia cs xs := stepD.symm

lemma inertia_lloydLoop_le (xs : List ℚ) (n : Nat) (cs : List ℚ) (h : cs ≠ []) :
    inertia (lloydLoop xs n cs) xs ≤ inertia cs xs := by
  induction n generalizing cs with
  | zero => exact le_refl _
  | succ n ih =>
      rw [lloydLoop]
      split
      · exact le_refl _
      · exact le_trans (ih (lloydStep xs cs) (lloydStep_ne_nil xs cs h))
          (inertia_lloydStep_le xs cs h)

lemma construct_linear_eq (layer : LinearLayer) (K : Nat)
    (hK : 0 < K) (hlen : K ≤ layer.weight.data.length) :
    construct layer K "linear" = .ok (expectedQLayer layer K) := by
  have hw : layer.weight.flatten ≠ [] := by
    unfold Tensor.flatten
    intro h0
    rw [h0] at hlen
    simp at hlen
    omega
  have hlen2 : ¬ layer.weight.flatten.length < K := by
    unfold Tensor.flatten
    omega
  unfold construct constructGeneric init_centroid_weights kmeansFit
  dsimp only
  rw [if_pos (show ("linear" : String) = "linear" from rfl), if_neg hw]
  dsimp only
  rw [if_neg (show ¬ K = 0 by omega), if_neg hlen2,
    if_neg (show ¬ (linearInitVals layer.weight.flatten K).length ≠ K by
      rw [length_linearInitVals]; exact fun h => h rfl)]
  rfl

lemma construct_ok_inv {layer : LinearLayer} {K : Nat} {m : String} {ql : QLayer}
    (h : construct layer K m = .ok ql) :
    m = "linear" ∧ 0 < K ∧ K ≤ layer.weight.data.length ∧
      ql = expectedQLayer layer K := by
  by_cases hm : m = "linear"
  · subst hm
    by_cases hw : layer.weight.flatten = []
    · exfalso
      unfold construct constructGeneric init_centroid_weights at h
      dsimp only at h
      rw [if_pos (show ("linear" : String) = "linear" from rfl), if_pos hw] at h
      exact Except.noConfusion h
    · by_cases hK : K = 0
      · exfalso
        unfold construct constructGeneric init_centroid_weights kmeansFit at h
        dsimp only at h
        rw [if_pos (show ("linear" : String) = "linear" from rfl), if_neg hw] at h
        dsimp only at h
        rw [if_pos hK] at h
        exact Except.noConfusion h
      · by_cases hlen : layer.weight.flatten.length < K
        · exfalso
          unfold construct constructGeneric init_centroid_weights kmeansFit at h
          dsimp only at h
          rw [if_pos (show ("linear" : String) = "linear" from rfl), if_neg hw] at h
          dsimp only at h
          rw [if_neg hK, if_pos hlen] at h
          exact Except.noConfusion h
        · have hK' : 0 < K := Nat.pos_of_ne_zero hK
          have hlen' : K ≤ layer.weight.data.length := Nat.le_of_not_lt hlen
          rw [construct_linear_eq layer K hK' hlen'] at h
          cases h
          exact ⟨rfl, hK', hlen', rfl⟩
  · exfalso
    unfold construct constructGeneric init_centroid_weights at h
    dsimp only at h
    rw [if_neg hm] at h
    exact Except.noConfusion h

lemma getD_linspace (a b : ℚ) (num i : Nat) (h2 : 2 ≤ num) (hi : i < num) :
    (linspace a b num).getD i 0 = a + (i : ℚ) * ((b - a) / ((num : ℚ) - 1)) := by
  unfold linspace
  rw [if_neg (by omega), if_neg (by omega)]
  rw [List.getD_eq_getElem _ _ (by rw [List.length_map, List.length_range]; exact hi)]
  rw [List.getElem_map, List.getElem_range]

lemma linspace_mem_bounds (a b : ℚ) (num : Nat) (hab : a ≤ b) (u : ℚ)
    (hu : u ∈ linspace a b num) : a ≤ u ∧ u ≤ b := by
  unfold linspace at hu
  by_cases h0 : num = 0
  · rw [if_pos h0] at hu
    simp at hu
  · rw [if_neg h0] at hu
    by_cases h1 : num = 1
    · rw [if_pos h1] at hu
      have hua : u = a := by simpa using hu
      subst hua
      exact ⟨le_refl _, hab⟩
    · rw [if_neg h1] at hu
      rw [List.mem_map] at hu
      obtain ⟨i, hi, rfl⟩ := hu
      rw [List.mem_range] at hi
      have hnum : (2 : ℚ) ≤ (num : ℚ) := by exact_mod_cast (by omega : 2 ≤ num)
      have hpos : (0 : ℚ) < (num : ℚ) - 1 := by linarith
      have hstep0 : (0 : ℚ) ≤ (b - a) / ((num : ℚ) - 1) :=
        div_nonneg (by linarith) hpos.le
      constructor
      · have : (0 : ℚ) ≤ (i : ℚ) * ((b - a) / ((num : ℚ) - 1)) :=
          mul_nonneg (by positivity) hstep0
        linarith
      · have hi' : (i : ℚ) ≤ (num : ℚ) - 1 := by
          have : (i : ℚ) + 1 ≤ (num : ℚ) := by exact_mod_cast hi
          linarith
        have h1' : (i : ℚ) * ((b - a) / ((num : ℚ) - 1))
            ≤ ((num : ℚ) - 1) * ((b - a) / ((num : ℚ) - 1)) :=
          mul_le_mul_of_nonneg_right hi' hstep0
        have h2' : ((num : ℚ) - 1) * ((b - a) / ((num : ℚ) - 1)) = b - a := by
          rw [mul_comm]
          exact div_mul_cancel₀ _ hpos.ne'
        linarith

lemma length_tableGrad (ql : QLayer) (x g : List ℚ) :
    (tableGrad ql x g).length = ql.centroid_table.length := by
  simp [tableGrad]

lemma applyOp_q_weight (ql : QLayer) (op : LayerOp) :
    (applyOp ql op).q_weight = ql.q_weight := by
  cases op <;> rfl

lemma applyOp_table_length (ql : QLayer) (op : LayerOp) :
    (applyOp ql op).centroid_table.length = ql.centroid_table.length := by
  cases op with
  | fwd x => rfl
  | train lr x g =>
      unfold applyOp sgdStep
      dsimp only
      split
      · rfl
      · rw [List.length_zipWith, length_tableGrad]
        exact Nat.min_self _

lemma applyOps_q_weight (ql : QLayer) (ops : List LayerOp) :
    (applyOps ql ops).q_weight = ql.q_weight := by
  induction ops generalizing ql with
  | nil => rfl
  | cons op ops ih =>
      show (applyOps (applyOp ql op) ops).q_weight = ql.q_weight
      rw [ih, applyOp_q_weight]

lemma applyOps_table_length (ql : QLayer) (ops : List LayerOp) :
    (applyOps ql ops).centroid_table.length = ql.centroid_table.length := by
  induction ops generalizing ql with
  | nil => rfl
  | cons op ops ih =>
      show (applyOps (applyOp ql op) ops).centroid_table.length
        = ql.centroid_table.length
      rw [ih, applyOp_table_length]

lemma sqError_map_self (w : List ℚ) (f : ℚ → ℚ) :
    sqError (w.map f) w = (w.map (fun x => (x - f x) ^ 2)).sum := by
  induction w with
  | nil => rfl
  | cons y ys ih =>
      have hy : (f y - y) ^ 2 = (y - f y) ^ 2 := by ring
      simp only [sqError, List.map_cons, List.zip_cons_cons, List.sum_cons] at ih ⊢
      rw [hy, ih]

lemma sum_map_range_eq (n : Nat) (f : Nat → ℚ) :
    ((List.range n).map f).sum = ∑ i ∈ Finset.range n, f i := by
  induction n with
  | zero => rfl
  | succ n ih =>
      rw [List.range_succ, List.map_append, List.sum_append, Finset.sum_range_succ, ih]
      simp

lemma getD_map_range (n : Nat) (f : Nat → ℚ) (i : Nat) (hi : i < n) :
    ((List.range n).map f).getD i 0 = f i := by
  rw [List.getD_eq_getElem _ _ (by simpa using hi), List.getElem_map, List.getElem_range]

lemma getD_map_lt {α β : Type} (l : List α) (f : α → β) (p : Nat) (d : α) (d' : β)
    (hp : p < l.length) : (l.map f).getD p d' = f (l.getD p d) := by
  rw [List.getD_eq_getElem _ _ (by simpa using hp), List.getD_eq_getElem _ _ hp,
    List.getElem_map]

lemma dotList_eq_sum (a b : List ℚ) :
    dotList a b = ∑ j ∈ Finset.range a.length, a.getD j 0 * b.getD j 0 := by
  induction a generalizing b with
  | nil => simp [dotList]
  | cons y ys ih =>
      cases b with
      | nil => simp [dotList]
      | cons z zs =>
          have hhead : dotList (y :: ys) (z :: zs) = y * z + dotList ys zs := by
            simp [dotList]
          rw [hhead, ih zs, show (y :: ys).length = ys.length + 1 from rfl,
            Finset.sum_range_succ']
          simp only [List.getD_cons_succ, List.getD_cons_zero]
          exact add_comm _ _

lemma idx_getD_lt (ql : QLayer) (p : Nat) (hp : p < ql.q_weight.data.length)
    (hidx : ∀ v ∈ ql.q_weight.data, v < ql.centroid_table.length) :
    ql.q_weight.data.getD p 0 < ql.centroid_table.length := by
  apply hidx
  rw [List.getD_eq_getElem _ _ hp]
  exact List.getElem_mem hp

lemma tableGrad_correct (ql : QLayer) (x g : List ℚ)
    (hg : g.length = ql.q_weight.rows)
    (hwf : ql.q_weight.data.length = ql.q_weight.rows * ql.q_weight.cols)
    (hidx : ∀ v ∈ ql.q_weight.data, v < ql.centroid_table.length) :
    dotList g (ql.forward x) = dotList (tableGrad ql x g) ql.centroid_table := by
  have hpos : ∀ i j : Nat, i < ql.q_weight.rows → j < ql.q_weight.cols →
      i * ql.q_weight.cols + j < ql.q_weight.data.length := by
    intro i j hi hj
    rw [hwf]
    calc i * ql.q_weight.cols + j < i * ql.q_weight.cols + ql.q_weight.cols := by omega
      _ = (i + 1) * ql.q_weight.cols := by ring
      _ ≤ ql.q_weight.rows * ql.q_weight.cols := Nat.mul_le_mul_right _ (by omega)
  have hmem : ∀ i j : Nat, i < ql.q_weight.rows → j < ql.q_weight.cols →
      ql.q_weight.data.getD (i * ql.q_weight.cols + j) 0 ∈
        Finset.range ql.centroid_table.length := by
    intro i j hi hj
    exact Finset.mem_range.mpr (idx_getD_lt ql _ (hpos i j hi hj) hidx)
  -- the canonical triple-sum form of the loss
  have lhs_eq : dotList g (ql.forward x)
      = ∑ i ∈ Finset.range ql.q_weight.rows, ∑ j ∈ Finset.range ql.q_weight.cols,
          g.getD i 0 * (ql.centroid_table.getD
              (ql.q_weight.data.getD (i * ql.q_weight.cols + j) 0) 0 * x.getD j 0) := by
    rw [dotList_eq_sum, hg]
    apply Finset.sum_congr rfl
    intro i hi
    rw [Finset.mem_range] at hi
    have hfwd : ql.forward x
        = (List.range ql.q_weight.rows).map
            (fun i => dotList (tensorRow (reconstructWeights ql) i) x) := rfl
    rw [hfwd, getD_map_range _ _ i hi]
    have hrow : dotList (tensorRow (reconstructWeights ql) i) x
        = ∑ j ∈ Finset.range ql.q_weight.cols,
            (tensorRow (reconstructWeights ql) i).getD j 0 * x.getD j 0 := by
      have hlenrow : (tensorRow (reconstructWeights ql) i).length = ql.q_weight.cols := by
        simp [tensorRow, reconstructWeights, Tensor.view]
      rw [dotList_eq_sum, hlenrow]
    rw [hrow, Finset.mul_sum]
    apply Finset.sum_congr rfl
    intro j hj
    rw [Finset.mem_range] at hj
    have hentry : (tensorRow (reconstructWeights ql) i).getD j 0
        = ql.centroid_table.getD
            (ql.q_weight.data.getD (i * ql.q_weight.cols + j) 0) 0 := by
      have h1 : (tensorRow (reconstructWeights ql) i).getD j 0
          = (reconstructWeights ql).data.getD (i * (reconstructWeights ql).cols + j) 0 :=
        getD_map_range _ _ j (by simpa [reconstructWeights, Tensor.view] using hj)
      rw [h1]
      have h2 : (reconstructWeights ql).data
          = ql.q_weight.data.map (embLookup ql.centroid_table) := rfl
      have h3 : (reconstructWeights ql).cols = ql.q_weight.cols := rfl
      rw [h2, h3, getD_map_lt _ _ _ 0 _ (hpos i j hi hj)]
      rfl
    rw [hentry]
  have rhs_eq : dotList (tableGrad ql x g) ql.centroid_table
      = ∑ i ∈ Finset.range ql.q_weight.rows, ∑ j ∈ Finset.range ql.q_weight.cols,
          g.getD i 0 * (ql.centroid_table.getD
              (ql.q_weight.data.getD (i * ql.q_weight.cols + j) 0) 0 * x.getD j 0) := by
    rw [dotList_eq_sum, length_tableGrad]
    have hterm : ∀ k ∈ Finset.range ql.centroid_table.length,
        (tableGrad ql x g).getD k 0 * ql.centroid_table.getD k 0
          = ∑ i ∈ Finset.range ql.q_weight.rows, ∑ j ∈ Finset.range ql.q_weight.cols,
              (if ql.q_weight.data.getD (i * ql.q_weight.cols + j) 0 = k
               then g.getD i 0 * (ql.centroid_table.getD k 0 * x.getD j 0) else 0) := by
      intro k hk
      rw [Finset.mem_range] at hk
      have h1 : (tableGrad ql x g).getD k 0
          = ((List.range ql.q_weight.rows).map (fun i =>
              g.getD i 0 *
                ((List.range ql.q_weight.cols).map (fun j =>
                  if ql.q_weight.data.getD (i * ql.q_weight.cols + j) 0 = k
                  then x.getD j 0 else 0)).sum)).sum := by
        unfold tableGrad
        exact getD_map_range _ _ k hk
      rw [h1, sum_map_range_eq, Finset.sum_mul]
      apply Finset.sum_congr rfl
      intro i _
      rw [sum_map_range_eq, Finset.mul_sum, Finset.sum_mul]
      apply Finset.sum_congr rfl
      intro j _
      split
      · ring
      · ring
    rw [Finset.sum_congr rfl hterm]
    rw [Finset.sum_comm]
    apply Finset.sum_congr rfl
    intro i hi2
    rw [Finset.sum_comm]
    apply Finset.sum_congr rfl
    intro j hj
    rw [Finset.mem_range] at hj
    have hij : i < ql.q_weight.rows := Finset.mem_range.mp hi2
    rw [Finset.sum_ite_eq (Finset.range ql.centroid_table.length)
      (ql.q_weight.data.getD (i * ql.q_weight.cols + j) 0)
      (fun k => g.getD i 0 * (ql.centroid_table.getD k 0 * x.getD j 0))]
    rw [if_pos (hmem i j hij hj)]
  rw [lhs_eq, rhs_eq]

lemma forward_eq_of_fields {a b : QLayer} (h1 : a.q_weight = b.q_weight)
    (h2 : a.centroid_table = b.centroid_table) (x : List ℚ) :
    a.forward x = b.forward x := by
  unfold QLayer.forward
  dsimp only
  rw [h1, h2]

lemma expectedQLayer_entries_lt (layer : LinearLayer) (K : Nat) (hK : 0 < K) :
    ∀ v ∈ (expectedQLayer layer K).q_weight.data, v < K := by
  intro v hv
  have hne : fittedCenters layer.weight.data K ≠ [] := by
    intro h0
    have hl := length_fittedCenters layer.weight.data K
    rw [h0] at hl
    simp at hl
    omega
  obtain ⟨y, _, rfl⟩ := List.mem_map.mp hv
  have := nearestIdx_lt (fittedCenters layer.weight.data K) y hne
  rwa [length_fittedCenters] at this

/-- C2: for every quantized layer and input activation tensor, the forward
evaluation returns exactly the result of looking up each Index Matrix entry
in the current Centroid Set, reshaping the looked-up values to the original
weight shape, and applying the bias-free linear transform. -/
theorem c2_forward_matches_spec_evaluator (ql : QLayer) (input_ : List ℚ) :
    ql.forward input_ = specForwardEval ql input_ := rfl

/-- C9: forward evaluation is read-only: it returns the layer state
unchanged, so a repeated forward call on the resulting state yields the
same output. -/
theorem c9_forward_readonly (ql : QLayer) (input_ : List ℚ) :
    (ql.forwardS input_).2 = ql ∧
    (((ql.forwardS input_).2.forwardS input_).1 = (ql.forwardS input_).1) :=
  ⟨rfl, rfl⟩

/-- C4: for every initialization policy other than `linear`, construction
fails with the `ValueError` naming the unsupported policy — independently
of the clustering collaborator (so before any clustering is attempted) —
and no layer object is returned. -/
theorem c4_unsupported_policy
    (km : Nat → List ℚ → Nat → List ℚ → Except String (List ℚ))
    (layer : LinearLayer) (K : Nat) (m : String) (hm : m ≠ "linear") :
    constructGeneric km layer K m
      = .error ("Initialize method " ++ m ++ " for centroids is unsupported") := by
  unfold constructGeneric init_centroid_weights
  dsimp only
  rw [if_neg hm]

/-- Witness for C4 at the spec's concrete scenario `policy = "quadratic"`. -/
theorem c4_unsupported_policy_witness :
    ("quadratic" : String) ≠ "linear" ∧
    constructGeneric kmeansFit demoLinear 2 "quadratic"
      = .error ("Initialize method " ++ "quadratic" ++ " for centroids is unsupported") :=
  ⟨by decide, c4_unsupported_policy kmeansFit demoLinear 2 "quadratic" (by decide)⟩

/-- C1 (amended with `0 < K`): for every layer and positive cluster count K
not exceeding the number of distinct weight values, construction succeeds
and yields an Index Matrix with the weight tensor's shape, all entries in
`[0, K)`, and the stored weight holding only cluster indices (each weight
position maps to the index of its nearest fitted centroid). -/
theorem c1_index_matrix_shape_and_range (layer : LinearLayer) (K : Nat)
    (hK : 0 < K) (hd : K ≤ distinctCount layer.weight.data) :
    construct layer K "linear" = .ok (expectedQLayer layer K) ∧
    (expectedQLayer layer K).q_weight.rows = layer.weight.rows ∧
    (expectedQLayer layer K).q_weight.cols = layer.weight.cols ∧
    (expectedQLayer layer K).q_weight.data.length = layer.weight.data.length ∧
    (∀ v ∈ (expectedQLayer layer K).q_weight.data, v < K) ∧
    (expectedQLayer layer K).q_weight.data
      = layer.weight.data.map (nearestIdx (expectedQLayer layer K).centroid_table) := by
  have hlen : K ≤ layer.weight.data.length := le_trans hd (distinctCount_le _)
  refine ⟨construct_linear_eq layer K hK hlen, rfl, rfl, ?_, expectedQLayer_entries_lt layer K hK, rfl⟩
  simp [expectedQLayer, Tensor.view]

/-- Witness for C1 at the demonstration layer with two clusters. -/
theorem c1_index_matrix_shape_and_range_witness :
    0 < 2 ∧ 2 ≤ distinctCount demoLinear.weight.data ∧
    (construct demoLinear 2 "linear" = .ok (expectedQLayer demoLinear 2) ∧
     (expectedQLayer demoLinear 2).q_weight.rows = demoLinear.weight.rows ∧
     (expectedQLayer demoLinear 2).q_weight.cols = demoLinear.weight.cols ∧
     (expectedQLayer demoLinear 2).q_weight.data.length = demoLinear.weight.data.length ∧
     (∀ v ∈ (expectedQLayer demoLinear 2).q_weight.data, v < 2) ∧
     (expectedQLayer demoLinear 2).q_weight.data
       = demoLinear.weight.data.map (nearestIdx (expectedQLayer demoLinear 2).centroid_table)) :=
  ⟨by decide, by decide, c1_index_matrix_shape_and_range demoLinear 2 (by decide) (by decide)⟩

/-- Counterexample to C1 as stated: `K = 0` does not exceed the number of
distinct values, yet construction raises instead of producing an Index
Matrix (the clustering collaborator rejects `n_clusters = 0`). -/
theorem c1_zero_clusters_counterexample :
    0 ≤ distinctCount demoLinear.weight.data ∧
    construct demoLinear 0 "linear"
      = .error "n_clusters should be an integer greater than zero" :=
  ⟨Nat.zero_le _, by with_unfolding_all decide⟩

/-- C5: after a successful quantization the Centroid Set has exactly K
entries, and through any sequence of forward evaluations and gradient
updates the cardinality never changes and every Index Matrix entry stays a
valid lookup into the current Centroid Set. -/
theorem c5_centroid_cardinality (layer : LinearLayer) (K : Nat) (m : String)
    (ql : QLayer) (h : construct layer K m = .ok ql) (ops : List LayerOp) :
    ql.centroid_table.length = K ∧
    (applyOps ql ops).centroid_table.length = K ∧
    ∀ v ∈ (applyOps ql ops).q_weight.data,
      v < (applyOps ql ops).centroid_table.length := by
  obtain ⟨hm, hK, hlen, rfl⟩ := construct_ok_inv h
  have hKlen : (expectedQLayer layer K).centroid_table.length = K :=
    length_fittedCenters layer.weight.data K
  refine ⟨hKlen, ?_, ?_⟩
  · rw [applyOps_table_length]
    exact hKlen
  · intro v hv
    rw [applyOps_q_weight] at hv
    rw [applyOps_table_length, hKlen]
    exact expectedQLayer_entries_lt layer K hK v hv

/-- Witness for C5: the demonstration layer, followed by a forward pass and
a training step. -/
theorem c5_centroid_cardinality_witness :
    construct demoLinear 2 "linear" = .ok demoQL ∧
    (demoQL.centroid_table.length = 2 ∧
     (applyOps demoQL [LayerOp.fwd [2, 1], LayerOp.train 1 [2, 1] [1, 1]]).centroid_table.length = 2 ∧
     ∀ v ∈ (applyOps demoQL [LayerOp.fwd [2, 1], LayerOp.train 1 [2, 1] [1, 1]]).q_weight.data,
       v < (applyOps demoQL [LayerOp.fwd [2, 1], LayerOp.train 1 [2, 1] [1, 1]]).centroid_table.length) :=
  ⟨by with_unfolding_all decide,
    c5_centroid_cardinality demoLinear 2 "linear" demoQL (by with_unfolding_all decide)
      [LayerOp.fwd [2, 1], LayerOp.train 1 [2, 1] [1, 1]]⟩

/-- C7: the clustering run performed during quantization is a single run
seeded with the initial centroids from `init_centroid_weights`, with an
iteration bound of 100; it completes with a (best-effort) result rather
than an error even when the bound is exhausted before convergence, and the
constructor stores exactly that result. The collaborator is the model of
`KMeans(n_clusters, init=…, n_init=1, max_iter=100)` from the spec's
external-interface contract. -/
theorem c7_kmeans_single_seeded_bounded_run (layer : LinearLayer) (K : Nat)
    (hK : 0 < K) (hlen : K ≤ layer.weight.data.length) :
    kmeansFit K (linearInitVals layer.weight.data K) 100 layer.weight.data
        = .ok (lloydLoop layer.weight.data 100 (linearInitVals layer.weight.data K))
    ∧ construct layer K "linear" = .ok (expectedQLayer layer K) := by
  constructor
  · unfold kmeansFit
    rw [if_neg (by omega), if_neg (by omega),
      if_neg (by rw [length_linearInitVals]; exact fun h => h rfl)]
  · exact construct_linear_eq layer K hK hlen

/-- Witness for C7 at the demonstration layer. -/
theorem c7_kmeans_single_seeded_bounded_run_witness :
    0 < 2 ∧ 2 ≤ demoLinear.weight.data.length ∧
    (kmeansFit 2 (linearInitVals demoLinear.weight.data 2) 100 demoLinear.weight.data
        = .ok (lloydLoop demoLinear.weight.data 100 (linearInitVals demoLinear.weight.data 2))
     ∧ construct demoLinear 2 "linear" = .ok (expectedQLayer demoLinear 2)) :=
  ⟨by decide, by decide,
    c7_kmeans_single_seeded_bounded_run demoLinear 2 (by decide) (by decide)⟩

/-- C8: with the freshly constructed (pre-training) Centroid Set and Index
Matrix, the squared reconstruction error of the dense weight matrix built
by the forward evaluator is at most the squared error of assigning each
weight its nearest initial centroid (Lloyd iteration never increases the
K-means objective from its seeded value). -/
theorem c8_roundtrip_error_bound (layer : LinearLayer) (K : Nat) (ql : QLayer)
    (h : construct layer K "linear" = .ok ql) :
    sqError (reconstructWeights ql).data layer.weight.data
      ≤ sqError (layer.weight.data.map (fun x =>
          (linearInitVals layer.weight.data K).getD
            (nearestIdx (linearInitVals layer.weight.data K) x) 0))
          layer.weight.data := by
  obtain ⟨hm, hK, hlen, rfl⟩ := construct_ok_inv h
  have hrec : (reconstructWeights (expectedQLayer layer K)).data
      = layer.weight.data.map (fun x =>
          (fittedCenters layer.weight.data K).getD
            (nearestIdx (fittedCenters layer.weight.data K) x) 0) := by
    show (layer.weight.data.map (nearestIdx (fittedCenters layer.weight.data K))).map
          (embLookup (fittedCenters layer.weight.data K)) = _
    rw [List.map_map]
    rfl
  rw [hrec, sqError_map_self, sqError_map_self]
  have hne : linearInitVals layer.weight.data K ≠ [] := by
    intro h0
    have hl := length_linearInitVals layer.weight.data K
    rw [h0] at hl
    simp at hl
    omega
  exact inertia_lloydLoop_le layer.weight.data 100 (linearInitVals layer.weight.data K) hne

/-- Witness for C8 at the demonstration layer. -/
theorem c8_roundtrip_error_bound_witness :
    construct demoLinear 2 "linear" = .ok demoQL ∧
    sqError (reconstructWeights demoQL).data demoLinear.weight.data
      ≤ sqError (demoLinear.weight.data.map (fun x =>
          (linearInitVals demoLinear.weight.data 2).getD
            (nearestIdx (linearInitVals demoLinear.weight.data 2) x) 0))
          demoLinear.weight.data :=
  ⟨by with_unfolding_all decide,
    c8_roundtrip_error_bound demoLinear 2 demoQL (by with_unfolding_all decide)⟩

/-- C10: a constructed QuantizedLayer keeps the original bias unchanged in
its deep-copied sublayer, while the forward output ignores it; hence two
original layers with the same weights and different biases quantize to
layers with identical forward outputs. -/
theorem c10_bias_kept_but_ignored (A B : LinearLayer) (K : Nat) (m : String)
    (qa qb : QLayer)
    (hAb : A.bias.isSome = true) (hBb : B.bias.isSome = true)
    (hw : A.weight = B.weight)
    (hA : construct A K m = .ok qa) (hB : construct B K m = .ok qb) :
    qa.q_bias = A.bias ∧ qb.q_bias = B.bias ∧ ∀ x, qa.forward x = qb.forward x := by
  obtain ⟨hmA, hKA, hlenA, rfl⟩ := construct_ok_inv hA
  obtain ⟨hmB, hKB, hlenB, rfl⟩ := construct_ok_inv hB
  refine ⟨rfl, rfl, ?_⟩
  intro x
  apply forward_eq_of_fields
  · unfold expectedQLayer
    dsimp only
    rw [hw]
  · unfold expectedQLayer
    dsimp only
    rw [hw]

/-- Witness for C10: the demonstration layer with two different biases. -/
theorem c10_bias_kept_but_ignored_witness :
    demoLinearBias1.bias.isSome = true ∧ demoLinearBias2.bias.isSome = true ∧
    demoLinearBias1.weight = demoLinearBias2.weight ∧
    construct demoLinearBias1 2 "linear" = .ok demoQLBias1 ∧
    construct demoLinearBias2 2 "linear" = .ok demoQLBias2 ∧
    demoQLBias1.q_bias = demoLinearBias1.bias ∧
    demoQLBias2.q_bias = demoLinearBias2.bias ∧
    demoQLBias1.forward [2, 1] = demoQLBias2.forward [2, 1] :=
  ⟨by decide, by decide, by decide,
    by with_unfolding_all decide, by with_unfolding_all decide,
    (c10_bias_kept_but_ignored demoLinearBias1 demoLinearBias2 2 "linear"
      demoQLBias1 demoQLBias2 (by decide) (by decide) (by decide)
      (by with_unfolding_all decide) (by with_unfolding_all decide)).1,
    (c10_bias_kept_but_ignored demoLinearBias1 demoLinearBias2 2 "linear"
      demoQLBias1 demoQLBias2 (by decide) (by decide) (by decide)
      (by with_unfolding_all decide) (by with_unfolding_all decide)).2.1,
    (c10_bias_kept_but_ignored demoLinearBias1 demoLinearBias2 2 "linear"
      demoQLBias1 demoQLBias2 (by decide) (by decide) (by decide)
      (by with_unfolding_all decide) (by with_unfolding_all decide)).2.2 [2, 1]⟩

/-- C6 (amended): an SGD step through the forward evaluator with a nonzero
learning rate changes the Centroid Set entry at every index whose loss
gradient (with respect to the Centroid Set, not merely the output) is
nonzero, and leaves the Index Matrix unchanged in all cases. The claim as
stated — a nonzero upstream loss gradient alone forces a centroid change —
fails, e.g. on a zero input activation. -/
theorem c6_sgd_step_updates_centroids_only (ql : QLayer) (lr : ℚ)
    (x g : List ℚ) (k : Nat)
    (hfreeze : ql.centroid_table_freeze = false)
    (hlr : lr ≠ 0)
    (hk : k < ql.centroid_table.length)
    (hgk : (tableGrad ql x g).getD k 0 ≠ 0) :
    (sgdStep ql lr x g).centroid_table.getD k 0 ≠ ql.centroid_table.getD k 0 ∧
    (sgdStep ql lr x g).q_weight = ql.q_weight := by
  constructor
  · unfold sgdStep
    dsimp only
    rw [if_neg (by rw [hfreeze]; exact Bool.false_ne_true)]
    have hk2 : k < (List.zipWith (fun t gk => t - lr * gk)
        ql.centroid_table (tableGrad ql x g)).length := by
      rw [List.length_zipWith, length_tableGrad]
      omega
    have hk3 : k < (tableGrad ql x g).length := by
      rw [length_tableGrad]
      omega
    rw [List.getD_eq_getElem _ _ hk2, List.getElem_zipWith,
      List.getD_eq_getElem _ _ hk]
    intro heq
    have hz : lr * (tableGrad ql x g)[k] = 0 := by linarith
    rcases mul_eq_zero.mp hz with hcase | hcase
    · exact hlr hcase
    · apply hgk
      rw [List.getD_eq_getElem _ _ hk3]
      exact hcase
  · rfl

/-- Witness for C6 on a one-position layer where the centroid gradient is
nonzero. -/
theorem c6_sgd_step_updates_centroids_only_witness :
    tinyQL.centroid_table_freeze = false ∧ (1 : ℚ) ≠ 0 ∧
    0 < tinyQL.centroid_table.length ∧
    (tableGrad tinyQL [1] [1]).getD 0 0 ≠ 0 ∧
    ((sgdStep tinyQL 1 [1] [1]).centroid_table.getD 0 0
        ≠ tinyQL.centroid_table.getD 0 0 ∧
     (sgdStep tinyQL 1 [1] [1]).q_weight = tinyQL.q_weight) :=
  ⟨by decide, by decide, by decide, by with_unfolding_all decide,
    c6_sgd_step_updates_centroids_only tinyQL 1 [1] [1] 0 (by decide) (by decide)
      (by decide) (by with_unfolding_all decide)⟩

/-- Counterexample to C6 as stated: on the demonstration layer, a zero
input activation with the nonzero upstream loss gradient `[1, 1]` yields a
zero centroid gradient, so the SGD step changes nothing at all. -/
theorem c6_zero_input_counterexample :
    construct demoLinear 2 "linear" = .ok demoQL ∧
    ¬ ([(1 : ℚ), 1] = [(0 : ℚ), 0]) ∧
    sgdStep demoQL 1 [0, 0] [1, 1] = demoQL := by
  refine ⟨by with_unfolding_all decide, by decide, by with_unfolding_all decide⟩

lemma getD_linearInitVals (w : List ℚ) (K i : Nat) (h2 : 2 ≤ K) (hi : i < K) :
    (linearInitVals w K).getD i 0
      = (listMin w * 10 + (listMax w * 10 - listMin w * 10) / ((K : ℚ) + 1)
          + (i : ℚ) * (((listMax w * 10 - (listMax w * 10 - listMin w * 10) / ((K : ℚ) + 1))
              - (listMin w * 10 + (listMax w * 10 - listMin w * 10) / ((K : ℚ) + 1)))
                / ((K : ℚ) - 1))) / 10 := by
  unfold linearInitVals
  dsimp only
  rw [getD_map_lt _ _ _ 0 _ (by rw [length_linspace]; exact hi)]
  rw [getD_linspace _ _ _ _ h2 hi]

lemma linearInitVals_mem_bounds (w : List ℚ) (K : Nat)
    (hlt : listMin w < listMax w) :
    ∀ v ∈ linearInitVals w K, listMin w < v ∧ v < listMax w := by
  intro v hv
  unfold linearInitVals at hv
  dsimp only at hv
  rw [List.mem_map] at hv
  obtain ⟨u, hu, rfl⟩ := hv
  rcases Nat.eq_zero_or_pos K with hK0 | hKpos
  · subst hK0
    unfold linspace at hu
    simp at hu
  · have hd0 : (0 : ℚ) < listMax w * 10 - listMin w * 10 := by linarith
    have hk1 : (1 : ℚ) ≤ (K : ℚ) := by exact_mod_cast hKpos
    have hs0 : (0 : ℚ) < (listMax w * 10 - listMin w * 10) / ((K : ℚ) + 1) :=
      div_pos hd0 (by linarith)
    have hs_le : (listMax w * 10 - listMin w * 10) / ((K : ℚ) + 1)
        ≤ (listMax w * 10 - listMin w * 10) / 2 := by
      rw [div_le_div_iff (by linarith) (by norm_num)]
      nlinarith
    have hab : listMin w * 10 + (listMax w * 10 - listMin w * 10) / ((K : ℚ) + 1)
        ≤ listMax w * 10 - (listMax w * 10 - listMin w * 10) / ((K : ℚ) + 1) := by
      linarith
    obtain ⟨h1, h2⟩ := linspace_mem_bounds _ _ K hab u hu
    constructor
    · rw [lt_div_iff (by norm_num : (0 : ℚ) < 10)]
      calc listMin w * 10
          < listMin w * 10 + (listMax w * 10 - listMin w * 10) / ((K : ℚ) + 1) := by linarith
        _ ≤ u := h1
    · rw [div_lt_iff (by norm_num : (0 : ℚ) < 10)]
      calc u ≤ listMax w * 10 - (listMax w * 10 - listMin w * 10) / ((K : ℚ) + 1) := h2
        _ < listMax w * 10 := by linarith

/-- C3 (amended): on every non-empty weight array the `linear` policy
computes min and max, scales both by 10, spaces K values evenly over K+1
intervals away from the scaled extremes, rescales by 1/10, and returns K
scalar centroids; consecutive centroids are evenly spaced, and they lie
strictly inside [min, max] whenever min < max. The claim as stated — the
values are strictly inside [min, max] unconditionally — fails when all
weights are equal. -/
theorem c3_linear_init_policy (w : List ℚ) (K : Nat) (hw : w ≠ []) :
    init_centroid_weights w K "linear"
        = .ok ((linspace
            (listMin w * 10 + (listMax w * 10 - listMin w * 10) / ((K : ℚ) + 1))
            (listMax w * 10 - (listMax w * 10 - listMin w * 10) / ((K : ℚ) + 1)) K).map
            (fun v => v / 10))
    ∧ (linearInitVals w K).length = K
    ∧ (∀ i j : Nat, i + 1 < K → j + 1 < K →
        (linearInitVals w K).getD (i + 1) 0 - (linearInitVals w K).getD i 0
          = (linearInitVals w K).getD (j + 1) 0 - (linearInitVals w K).getD j 0)
    ∧ (listMin w < listMax w →
        ∀ v ∈ linearInitVals w K, listMin w < v ∧ v < listMax w) := by
  have hdiff : ∀ i : Nat, i + 1 < K →
      (linearInitVals w K).getD (i + 1) 0 - (linearInitVals w K).getD i 0
        = (((listMax w * 10 - (listMax w * 10 - listMin w * 10) / ((K : ℚ) + 1))
            - (listMin w * 10 + (listMax w * 10 - listMin w * 10) / ((K : ℚ) + 1)))
              / ((K : ℚ) - 1)) / 10 := by
    intro i hi
    rw [getD_linearInitVals w K (i + 1) (by omega) (by omega),
      getD_linearInitVals w K i (by omega) (by omega)]
    push_cast
    ring
  refine ⟨?_, length_linearInitVals w K, ?_, fun hlt => linearInitVals_mem_bounds w K hlt⟩
  · unfold init_centroid_weights
    rw [if_pos (show ("linear" : String) = "linear" from rfl), if_neg hw]
    rfl
  · intro i j hi hj
    rw [hdiff i hi, hdiff j hj]

/-- Witness for C3 at the demonstration weights with two clusters. -/
theorem c3_linear_init_policy_witness :
    ([(0 : ℚ), 0, 1, 3] ≠ []) ∧
    (init_centroid_weights [(0 : ℚ), 0, 1, 3] 2 "linear"
        = .ok ((linspace
            (listMin [(0 : ℚ), 0, 1, 3] * 10
              + (listMax [(0 : ℚ), 0, 1, 3] * 10 - listMin [(0 : ℚ), 0, 1, 3] * 10) / ((2 : ℚ) + 1))
            (listMax [(0 : ℚ), 0, 1, 3] * 10
              - (listMax [(0 : ℚ), 0, 1, 3] * 10 - listMin [(0 : ℚ), 0, 1, 3] * 10) / ((2 : ℚ) + 1)) 2).map
            (fun v => v / 10))
     ∧ (linearInitVals [(0 : ℚ), 0, 1, 3] 2).length = 2
     ∧ (∀ i j : Nat, i + 1 < 2 → j + 1 < 2 →
         (linearInitVals [(0 : ℚ), 0, 1, 3] 2).getD (i + 1) 0
             - (linearInitVals [(0 : ℚ), 0, 1, 3] 2).getD i 0
           = (linearInitVals [(0 : ℚ), 0, 1, 3] 2).getD (j + 1) 0
             - (linearInitVals [(0 : ℚ), 0, 1, 3] 2).getD j 0)
     ∧ (listMin [(0 : ℚ), 0, 1, 3] < listMax [(0 : ℚ), 0, 1, 3] →
         ∀ v ∈ linearInitVals [(0 : ℚ), 0, 1, 3] 2,
           listMin [(0 : ℚ), 0, 1, 3] < v ∧ v < listMax [(0 : ℚ), 0, 1, 3])) :=
  ⟨by decide, c3_linear_init_policy [0, 0, 1, 3] 2 (by decide)⟩

/-- Counterexample to C3 as stated: with the constant weight array `[5]`
and `K = 1`, the single produced centroid is `5` itself, which does not lie
strictly inside `[min, max] = [5, 5]`. -/
theorem c3_constant_weights_counterexample :
    init_centroid_weights [(5 : ℚ)] 1 "linear" = .ok [5] ∧
    (5 : ℚ) ∈ linearInitVals [(5 : ℚ)] 1 ∧
    ¬ (listMin [(5 : ℚ)] < 5 ∧ (5 : ℚ) < listMax [(5 : ℚ)]) := by
  refine ⟨by with_unfolding_all decide, by with_unfolding_all decide,
    by with_unfolding_all decide⟩

end Ernie
